import Mathlib

/-!
Verification development for the per-cycle statistical validation engine of
`scripts/validation/generate_section_iv_artifacts.py`.

The embedding models IEEE floating-point data as exact rationals extended with
a NaN sentinel (`RVal`): every arithmetic operation of the script that the
claims touch (sums, means, medians, min/max, differences, comparisons) follows
the numpy/pandas NaN semantics of its call site: `np.mean` on a numpy array
propagates NaN, while `np.mean` on a pandas Series delegates to
`Series.mean(skipna=True)` and so excludes NaN; `np.nanmedian`/`np.nanmax`
skip NaN; comparisons with NaN are `false`.
The two places where the script produces irrational values
(`np.std`, the Spearman denominator `sqrt(Sxx*Syy)`) live in `RValR`,
real numbers extended with NaN.

Dataframes are modelled as lists of records; `groupby(..., sort=True)` is
modelled as iteration over the lexicographically sorted list of distinct keys,
each group being the order-preserving filter of the rows with that key;
`sort_values` is modelled as a stable insertion sort by the sort column.
-/

/-- Rational numbers extended with the IEEE NaN sentinel, modelling the
floating-point values flowing through the script. -/
inductive RVal where
  | nan : RVal
  | val (q : ℚ) : RVal
deriving DecidableEq

namespace RVal

/-- True exactly on the NaN sentinel. -/
def isNan : RVal → Bool
  | nan => true
  | val _ => false

/-- NaN-propagating addition (`x + y` on floats). -/
def add : RVal → RVal → RVal
  | val a, val b => val (a + b)
  | _, _ => nan

/-- NaN-propagating subtraction (`x - y` on floats). -/
def sub : RVal → RVal → RVal
  | val a, val b => val (a - b)
  | _, _ => nan

/-- NaN-propagating multiplication (`x * y` on floats). -/
def mul : RVal → RVal → RVal
  | val a, val b => val (a * b)
  | _, _ => nan

/-- The comparison `x < 0` on floats: `false` on NaN. -/
def ltZero : RVal → Bool
  | val q => decide (q < 0)
  | nan => false

/-- The comparison `x <= 0` on floats: `false` on NaN. -/
def nonpos : RVal → Bool
  | val q => decide (q ≤ 0)
  | nan => false

/-- The comparison `w < q` on floats with a non-NaN right operand:
`false` when `w` is NaN. -/
def ltVal (w : RVal) (q : ℚ) : Bool :=
  match w with
  | val w' => decide (w' < q)
  | nan => false

/-- The comparison `w == q` on floats with a non-NaN right operand:
`false` when `w` is NaN. -/
def eqVal (w : RVal) (q : ℚ) : Bool :=
  match w with
  | val w' => decide (w' = q)
  | nan => false

/-- NaN-propagating binary minimum. -/
def minOp : RVal → RVal → RVal
  | val a, val b => val (min a b)
  | _, _ => nan

/-- NaN-propagating binary maximum. -/
def maxOp : RVal → RVal → RVal
  | val a, val b => val (max a b)
  | _, _ => nan

/-- Extract the rational payload of a non-NaN value. -/
def toVal : RVal → Option ℚ
  | val q => some q
  | nan => none

end RVal

/-- Real numbers extended with the IEEE NaN sentinel, for the two script
quantities that are genuinely irrational (`np.std` and the Spearman ratio). -/
inductive RValR where
  | nan : RValR
  | val (x : ℝ) : RValR

namespace RValR

/-- True exactly on the NaN sentinel. -/
def isNan : RValR → Bool
  | nan => true
  | val _ => false

/-- Extract the real payload of a non-NaN value. -/
def toVal : RValR → Option ℝ
  | val x => some x
  | nan => none

end RValR

/-- `np.sum`, NaN-propagating; the sum of the empty array is 0. -/
def npSum (l : List RVal) : RVal := l.foldr RVal.add (RVal.val 0)

/-- `np.mean` on a numpy array: sum divided by length, NaN-propagating;
NaN on the empty array. -/
def npMean (l : List RVal) : RVal :=
  if l.length = 0 then RVal.nan else
  match npSum l with
  | RVal.nan => RVal.nan
  | RVal.val s => RVal.val (s / (l.length : ℚ))

/-- `np.mean` on a pandas Series delegates to `Series.mean(skipna=True)`:
the mean of the non-NaN entries; NaN when there are none. -/
def seriesMean (l : List RVal) : RVal :=
  match l.filterMap RVal.toVal with
  | [] => RVal.nan
  | q :: qs => RVal.val ((q :: qs).sum / ((q :: qs).length : ℚ))

/-- `np.diff`: consecutive differences `l[i+1] - l[i]`, NaN-propagating. -/
def npDiff (l : List RVal) : List RVal := List.zipWith RVal.sub l.tail l

/-- `np.min` on a non-empty array: NaN-propagating minimum. -/
def npMin (l : List RVal) : RVal :=
  match l with
  | [] => RVal.nan
  | x :: xs => xs.foldl RVal.minOp x

/-- `np.max` on a non-empty array: NaN-propagating maximum. -/
def npMax (l : List RVal) : RVal :=
  match l with
  | [] => RVal.nan
  | x :: xs => xs.foldl RVal.maxOp x

/-- `np.nanmax` on a non-empty array: maximum of the non-NaN entries,
NaN when every entry is NaN. -/
def npNanMax (l : List RVal) : RVal :=
  match l.filterMap RVal.toVal with
  | [] => RVal.nan
  | q :: qs => RVal.val (qs.foldl max q)

/-- Median of a non-empty list of reals: middle element of the ascending
sort for odd length, average of the two middle elements for even length. -/
noncomputable def medianR (vs : List ℝ) : ℝ :=
  let s := vs.insertionSort (fun a b => a ≤ b)
  if vs.length % 2 = 1 then s.getD (vs.length / 2) 0
  else (s.getD (vs.length / 2 - 1) 0 + s.getD (vs.length / 2) 0) / 2

/-- `np.nanmedian`: median of the non-NaN entries, NaN when there are none. -/
noncomputable def npNanMedian (l : List RValR) : RValR :=
  match l.filterMap RValR.toVal with
  | [] => RValR.nan
  | v :: vs => RValR.val (medianR (v :: vs))

/-- One row of the measurements table (`measurements_raw.parquet`). -/
structure Sample where
  cell_id : String
  operation_type : String
  cycle_index : Int
  t_index : Int
  Current_measured : RVal
  Voltage_measured : RVal
  Temperature_measured : RVal
  Capacity : RVal
deriving DecidableEq

/-- The discharge selection `meas[meas["operation_type"] == "discharge"]`. -/
def dischargeOnly (meas : List Sample) : List Sample :=
  meas.filter (fun s => decide (s.operation_type = "discharge"))

/-- Comparison on samples by the `t_index` column, for `sort_values("t_index")`. -/
def tLe (a b : Sample) : Prop := a.t_index ≤ b.t_index

instance : DecidableRel tLe := fun a b => inferInstanceAs (Decidable (a.t_index ≤ b.t_index))

instance : IsTotal Sample tLe := ⟨fun a b => Int.le_total a.t_index b.t_index⟩

instance : IsTrans Sample tLe := ⟨fun _ _ _ h1 h2 => le_trans h1 h2⟩

/-- `df.sort_values("t_index")`: stable sort of the rows by time index. -/
def sortByT (g : List Sample) : List Sample := g.insertionSort tLe

/-- Lexicographic order on `(cell_id, cycle_index)` group keys, spelled so
that equal strings are tested by equality first. -/
def keyLe (a b : String × Int) : Prop :=
  if a.1 = b.1 then a.2 ≤ b.2 else a.1 < b.1

instance : DecidableRel keyLe := fun a b => by
  unfold keyLe
  exact inferInstance

instance : IsTotal (String × Int) keyLe := by
  constructor
  intro a b
  unfold keyLe
  by_cases h : a.1 = b.1
  · rw [if_pos h, if_pos h.symm]
    exact Int.le_total a.2 b.2
  · rw [if_neg h, if_neg (Ne.symm h)]
    exact lt_or_gt_of_ne h

instance : IsTrans (String × Int) keyLe := by
  constructor
  intro a b c hab hbc
  unfold keyLe at *
  by_cases h1 : a.1 = b.1
  · by_cases h2 : b.1 = c.1
    · rw [if_pos h1] at hab
      rw [if_pos h2] at hbc
      rw [if_pos (h1.trans h2)]
      exact le_trans hab hbc
    · rw [if_neg h2] at hbc
      rw [if_neg (fun h => h2 (h1.symm.trans h))]
      rw [h1]
      exact hbc
  · by_cases h2 : b.1 = c.1
    · rw [if_neg h1] at hab
      have hac : a.1 < c.1 := h2 ▸ hab
      rw [if_neg (ne_of_lt hac)]
      exact hac
    · rw [if_neg h1] at hab
      rw [if_neg h2] at hbc
      have hac : a.1 < c.1 := lt_trans hab hbc
      rw [if_neg (ne_of_lt hac)]
      exact hac

/-- The sorted list of distinct `(cell_id, cycle_index)` keys:
the iteration order of `groupby(["cell_id","cycle_index"], sort=True)`. -/
def partitionKeys (meas : List Sample) : List (String × Int) :=
  ((meas.map (fun s => (s.cell_id, s.cycle_index))).dedup).insertionSort keyLe

/-- The group of rows with a given `(cell_id, cycle_index)` key, in stored order. -/
def partitionOf (meas : List Sample) (k : String × Int) : List Sample :=
  meas.filter (fun s => decide (s.cell_id = k.1) && decide (s.cycle_index = k.2))

/-- `voltage_monotonic_fraction` from the script: NaN when there are no
consecutive differences, otherwise the mean of the indicator `dv < 0`. -/
def voltage_monotonic_fraction (v : List RVal) : RVal :=
  let dv := npDiff v
  if dv.length = 0 then RVal.nan
  else RVal.val ((dv.countP RVal.ltZero : ℚ) / (dv.length : ℚ))

/-- Whether one partition, sorted by `t_index`, has some consecutive
time-index difference that is non-positive (`np.any(np.diff(t) <= 0)`). -/
def hasTimeViolation (g : List Sample) : Bool :=
  let t := (sortByT g).map (fun s => s.t_index)
  (List.zipWith (fun a b => a - b) t.tail t).any (fun d => decide (d ≤ 0))

/-- `time_monotonicity_violations` from the script: the number of discharge
partitions whose sorted time indices fail to strictly increase somewhere. -/
def time_monotonicity_violations (meas_dis : List Sample) : Nat :=
  (partitionKeys meas_dis).countP (fun k => hasTimeViolation (partitionOf meas_dis k))

/-- `pick_representative_discharge_cycle` from the script: the discharge rows
of the requested cell at its smallest cycle index, sorted by time index,
or an error naming the cell when it has no rows at all. -/
def pick_representative_discharge_cycle (meas_dis : List Sample) (cell_id : String) :
    Except String (Int × List Sample) :=
  let sub := meas_dis.filter (fun s => decide (s.cell_id = cell_id))
  match sub with
  | [] => Except.error ("No discharge samples for cell " ++ cell_id)
  | s :: rest =>
    let cycle_idx := rest.foldl (fun m x => min m x.cycle_index) s.cycle_index
    Except.ok (cycle_idx, sortByT (sub.filter (fun x => decide (x.cycle_index = cycle_idx))))

/-- `np.std(l, ddof=1)`: square root of the mean squared deviation with the
sample `n - 1` denominator; NaN-propagating through the deviations. -/
noncomputable def npStdSample (l : List RVal) : RValR :=
  match npSum (l.map (fun x => (x.sub (npMean l)).mul (x.sub (npMean l)))) with
  | RVal.nan => RValR.nan
  | RVal.val s => RValR.val (Real.sqrt ((s : ℝ) / ((l.length : ℝ) - 1)))

/-- One row of the per-cycle statistics table built by
`discharge_cycle_level_stats`. -/
structure CycleStat where
  cell_id : String
  cycle_index : Int
  n_samples : Nat
  i_mean_A : RVal
  i_std_A : RValR
  v_mono_frac : RVal
  t_min_C : RVal
  t_max_C : RVal
  cap_max_Ah : RVal

/-- The loop body of `discharge_cycle_level_stats`: the statistics record of
one `(cell, cycle)` partition, whose rows are first sorted by `t_index`. -/
noncomputable def statOf (cell : String) (cyc : Int) (g : List Sample) : CycleStat :=
  let df := sortByT g
  let i := df.map (fun s => s.Current_measured)
  let v := df.map (fun s => s.Voltage_measured)
  let temp := df.map (fun s => s.Temperature_measured)
  let cap := df.map (fun s => s.Capacity)
  { cell_id := cell
    cycle_index := cyc
    n_samples := df.length
    i_mean_A := npMean i
    i_std_A := if 1 < i.length then npStdSample i else RValR.nan
    v_mono_frac := voltage_monotonic_fraction v
    t_min_C := npMin temp
    t_max_C := npMax temp
    cap_max_Ah := npNanMax cap }

/-- `discharge_cycle_level_stats` from the script: one statistics record per
`(cell_id, cycle_index)` partition, in sorted key order. -/
noncomputable def discharge_cycle_level_stats (meas_dis : List Sample) : List CycleStat :=
  (partitionKeys meas_dis).map (fun k => statOf k.1 k.2 (partitionOf meas_dis k))

/-- One row of the impedance table (`impedance_raw.parquet`). -/
structure ImpRow where
  cell_id : String
  Re : RVal
  Rct : RVal
deriving DecidableEq

/-- The record returned by `impedance_positivity`. -/
structure ImpCounts where
  impedance_rows : Nat
  re_nonpos_count : Nat
  rct_nonpos_count : Nat
deriving DecidableEq

/-- `impedance_positivity` from the script: the number of impedance rows with
`Re <= 0` and, independently, the number with `Rct <= 0`. -/
def impedance_positivity (imp : List ImpRow) : ImpCounts :=
  { impedance_rows := imp.length
    re_nonpos_count := imp.countP (fun r => r.Re.nonpos)
    rct_nonpos_count := imp.countP (fun r => r.Rct.nonpos) }

/-- `pd.Series.rank(method="average")` of one entry: NaN entries keep a NaN
rank; a non-NaN value receives the average of the positions it ties for,
computed from the counts of smaller and of equal non-NaN entries. -/
def rankOf (l : List RVal) : RVal → RVal
  | RVal.nan => RVal.nan
  | RVal.val q =>
      RVal.val ((l.countP (fun w => w.ltVal q) : ℚ)
        + ((l.countP (fun w => w.eqVal q) : ℚ) + 1) / 2)

/-- `pd.Series(x).rank(method="average")` as a list transformation. -/
def rankAvg (l : List RVal) : List RVal := l.map (rankOf l)

/-- Centering `x - np.mean(x)` of an array, NaN-propagating. -/
def center (l : List RVal) : List RVal := l.map (fun x => x.sub (npMean l))

/-- `np.sum(a * b)` for two arrays, NaN-propagating. -/
def dotSum (a b : List RVal) : RVal := npSum (List.zipWith RVal.mul a b)

/-- `spearman_corr` from the script: rank both inputs with average ranks, NaN
for fewer than 3 points, centre the ranks, and return the centred dot product
over the product of the centred norms; NaN when the denominator is zero.
A NaN anywhere in the sums makes the float denominator NaN, so the `denom ==
0` test is false and the returned ratio is itself NaN; the catch-all arm
models exactly that. -/
noncomputable def spearman_corr (xs ys : List RVal) : RValR :=
  let x := rankAvg xs
  let y := rankAvg ys
  if x.length < 3 then RValR.nan else
  let xc := center x
  let yc := center y
  match dotSum xc yc, dotSum xc xc, dotSum yc yc with
  | RVal.val a, RVal.val b, RVal.val c =>
      if Real.sqrt ((b : ℝ) * (c : ℝ)) = 0 then RValR.nan
      else RValR.val ((a : ℝ) / Real.sqrt ((b : ℝ) * (c : ℝ)))
  | _, _, _ => RValR.nan

/-- One row of the per-cell summary table built by `build_cell_summary_table`. -/
structure SummaryRow where
  Cell : String
  N_discharge_cycles : Nat
  I_mean_A : RVal
  I_std_median_A : RValR
  V_monotonic_frac_mean : RVal
  Tmin_mean_C : RVal
  Tmax_mean_C : RVal
  capacity_cycle_monotonicity_indicator : RValR
  TimeMonotonicityViolations_allCells : Nat
  Re_nonpos_allRows : Nat
  Rct_nonpos_allRows : Nat
  Impedance_rows : Nat

/-- Comparison of cycle-statistics rows by `cycle_index`, for
`sort_values("cycle_index")`. -/
def cycLe (a b : CycleStat) : Prop := a.cycle_index ≤ b.cycle_index

instance : DecidableRel cycLe := fun a b => inferInstanceAs (Decidable (a.cycle_index ≤ b.cycle_index))

instance : IsTotal CycleStat cycLe := ⟨fun a b => Int.le_total a.cycle_index b.cycle_index⟩

instance : IsTrans CycleStat cycLe := ⟨fun _ _ _ h1 h2 => le_trans h1 h2⟩

/-- `sub.sort_values("cycle_index")`: stable sort of statistics rows by cycle. -/
def sortByCycle (cs : List CycleStat) : List CycleStat := cs.insertionSort cycLe

/-- The sorted list of distinct cell identifiers: the iteration order of
`groupby("cell_id", sort=True)` over the cycle-statistics table. -/
def cellKeys (cs : List CycleStat) : List String :=
  ((cs.map (fun r => r.cell_id)).dedup).insertionSort (fun a b => a ≤ b)

/-- The loop body of `build_cell_summary_table`: the summary row of one cell,
given the dataset-wide counters computed before the loop. The four
`np.mean(sub[col])` calls receive pandas Series, so they are the
skipna `seriesMean`; `np.nanmedian` likewise skips NaN. -/
noncomputable def summaryRowOf (time_viol : Nat) (imp_pos : ImpCounts)
    (cycle_stats : List CycleStat) (cell : String) : SummaryRow :=
  let sub := sortByCycle (cycle_stats.filter (fun r => decide (r.cell_id = cell)))
  { Cell := cell
    N_discharge_cycles := (sub.map (fun r => r.cycle_index)).dedup.length
    I_mean_A := seriesMean (sub.map (fun r => r.i_mean_A))
    I_std_median_A := npNanMedian (sub.map (fun r => r.i_std_A))
    V_monotonic_frac_mean := seriesMean (sub.map (fun r => r.v_mono_frac))
    Tmin_mean_C := seriesMean (sub.map (fun r => r.t_min_C))
    Tmax_mean_C := seriesMean (sub.map (fun r => r.t_max_C))
    capacity_cycle_monotonicity_indicator :=
      spearman_corr (sub.map (fun r => RVal.val (r.cycle_index : ℚ)))
        (sub.map (fun r => r.cap_max_Ah))
    TimeMonotonicityViolations_allCells := time_viol
    Re_nonpos_allRows := imp_pos.re_nonpos_count
    Rct_nonpos_allRows := imp_pos.rct_nonpos_count
    Impedance_rows := imp_pos.impedance_rows }

/-- `build_cell_summary_table` from the script: the dataset-wide counters are
computed once, then one summary row is emitted per cell in sorted order. -/
noncomputable def build_cell_summary_table (cycle_stats : List CycleStat)
    (meas_dis : List Sample) (imp : List ImpRow) : List SummaryRow :=
  (cellKeys cycle_stats).map
    (summaryRowOf (time_monotonicity_violations meas_dis) (impedance_positivity imp) cycle_stats)

/-- Concrete per-cycle statistics fixture for exercising the summary
aggregation: cycle 1 is a one-sample partition whose voltage-monotonic
fraction and current standard deviation are NaN sentinels, cycle 2 is a
regular partition with voltage-monotonic fraction 1. -/
def exStatsC1 : List CycleStat :=
  [⟨"A", 1, 1, RVal.val 1, RValR.nan, RVal.nan, RVal.val 25, RVal.val 25, RVal.val 1⟩,
   ⟨"A", 2, 2, RVal.val 1, RValR.val 0, RVal.val 1, RVal.val 25, RVal.val 25, RVal.val 1⟩]

/-- Concrete measurements fixture with one cell and two discharge cycles,
stored with the larger cycle index first. -/
def exMeasC8 : List Sample :=
  [⟨"A", "discharge", 2, 0, RVal.val 1, RVal.val 4, RVal.val 25, RVal.val 1⟩,
   ⟨"A", "discharge", 1, 0, RVal.val 1, RVal.val 4, RVal.val 25, RVal.val 1⟩]

/-! ### Basic lemmas about the NaN-extended operations -/

theorem RVal.add_nan_left (y : RVal) : RVal.add RVal.nan y = RVal.nan := by
  cases y <;> rfl

theorem RVal.add_nan_right (x : RVal) : RVal.add x RVal.nan = RVal.nan := by
  cases x <;> rfl

theorem npSum_nil : npSum [] = RVal.val 0 := rfl

theorem npSum_cons (x : RVal) (l : List RVal) : npSum (x :: l) = x.add (npSum l) := rfl

theorem npSum_eq_nan_of_mem {l : List RVal} (h : RVal.nan ∈ l) : npSum l = RVal.nan := by
  induction l with
  | nil => cases h
  | cons x t ih =>
    rcases List.mem_cons.mp h with h1 | h2
    · rw [npSum_cons, ← h1, RVal.add_nan_left]
    · rw [npSum_cons, ih h2, RVal.add_nan_right]

theorem npMean_eq_nan_of_mem {l : List RVal} (h : RVal.nan ∈ l) : npMean l = RVal.nan := by
  unfold npMean
  rw [npSum_eq_nan_of_mem h]
  split <;> rfl

theorem npSum_map_val (qs : List ℚ) : npSum (qs.map RVal.val) = RVal.val qs.sum := by
  induction qs with
  | nil => rfl
  | cons q t ih => rw [List.map_cons, npSum_cons, ih, List.sum_cons]; rfl

theorem npMean_map_val (qs : List ℚ) (h : qs ≠ []) :
    npMean (qs.map RVal.val) = RVal.val (qs.sum / (qs.length : ℚ)) := by
  unfold npMean
  rw [npSum_map_val, List.length_map,
    if_neg (fun h0 => h (List.length_eq_zero.mp h0))]

theorem npSum_const {l : List RVal} {m : ℚ} (h : ∀ v ∈ l, v = RVal.val m) :
    npSum l = RVal.val ((l.length : ℚ) * m) := by
  induction l with
  | nil => rw [npSum_nil]; norm_num
  | cons x t ih =>
    rw [npSum_cons, h x (List.mem_cons_self x t),
      ih (fun v hv => h v (List.mem_cons_of_mem x hv))]
    show RVal.val (m + (t.length : ℚ) * m) = _
    rw [List.length_cons]
    push_cast
    ring_nf

theorem npMean_const {l : List RVal} {m : ℚ} (hne : l ≠ []) (h : ∀ v ∈ l, v = RVal.val m) :
    npMean l = RVal.val m := by
  unfold npMean
  rw [npSum_const h, if_neg (fun h0 => hne (List.length_eq_zero.mp h0))]
  have hlen : (l.length : ℚ) ≠ 0 := Nat.cast_ne_zero.mpr
    (fun h0 => hne (List.length_eq_zero.mp h0))
  show RVal.val ((l.length : ℚ) * m / (l.length : ℚ)) = RVal.val m
  rw [mul_comm, mul_div_assoc, div_self hlen, mul_one]

theorem countP_eq_sum_map {α : Type _} (p : α → Bool) (l : List α) :
    l.countP p = (l.map (fun a => if p a = true then 1 else 0)).sum := by
  induction l with
  | nil => rfl
  | cons x t ih =>
    rw [List.countP_cons, List.map_cons, List.sum_cons, ih]
    omega

theorem npDiff_length (l : List RVal) : (npDiff l).length = l.length - 1 := by
  unfold npDiff
  rw [List.length_zipWith, List.length_tail]
  omega

theorem list_pairwise_of_forall {α : Type _} {R : α → α → Prop} (h : ∀ a b, R a b) :
    ∀ l : List α, l.Pairwise R := by
  intro l
  induction l with
  | nil => exact List.Pairwise.nil
  | cons x t ih => exact List.Pairwise.cons (fun b _ => h x b) ih

/-! ### Claim C5: voltage monotonic fraction -/

/-- C5: the voltage monotonic fraction equals the fraction of consecutive
time-ordered voltage differences that are strictly negative; with fewer than
2 samples it is the NaN sentinel, with at least 2 samples it lies in [0, 1],
and time-ordered voltages [4.2, 4.1, 4.05, 4.0] yield exactly 1.0. -/
theorem voltage_monotonic_fraction_spec :
    (∀ v : List RVal, v.length < 2 → voltage_monotonic_fraction v = RVal.nan)
    ∧ (∀ v : List RVal, 2 ≤ v.length →
        voltage_monotonic_fraction v
            = RVal.val (((npDiff v).countP RVal.ltZero : ℚ) / ((npDiff v).length : ℚ))
          ∧ ∃ q : ℚ, voltage_monotonic_fraction v = RVal.val q ∧ 0 ≤ q ∧ q ≤ 1)
    ∧ voltage_monotonic_fraction
        [RVal.val 4.2, RVal.val 4.1, RVal.val 4.05, RVal.val 4.0] = RVal.val 1 := by
  refine ⟨?_, ?_, ?_⟩
  · intro v hv
    unfold voltage_monotonic_fraction
    rw [if_pos (by rw [npDiff_length]; omega)]
  · intro v hv
    have hlen : (npDiff v).length = v.length - 1 := npDiff_length v
    have hne : ¬ (npDiff v).length = 0 := by omega
    constructor
    · unfold voltage_monotonic_fraction
      rw [if_neg hne]
    · refine ⟨((npDiff v).countP RVal.ltZero : ℚ) / ((npDiff v).length : ℚ), ?_, ?_, ?_⟩
      · unfold voltage_monotonic_fraction
        rw [if_neg hne]
      · positivity
      · rw [div_le_one (by exact_mod_cast Nat.pos_of_ne_zero hne)]
        exact_mod_cast List.countP_le_length RVal.ltZero
  · unfold voltage_monotonic_fraction npDiff
    norm_num [RVal.sub, RVal.ltZero, List.countP_cons, List.countP_nil]

/-- Witness for C5 at concrete inputs. -/
theorem voltage_monotonic_fraction_spec_witness :
    voltage_monotonic_fraction [RVal.val 1] = RVal.nan
    ∧ ∃ q : ℚ, voltage_monotonic_fraction [RVal.val 1, RVal.val 2, RVal.val 1] = RVal.val q
        ∧ 0 ≤ q ∧ q ≤ 1 :=
  ⟨voltage_monotonic_fraction_spec.1 [RVal.val 1] (by decide),
   (voltage_monotonic_fraction_spec.2.1 [RVal.val 1, RVal.val 2, RVal.val 1] (by decide)).2⟩

/-! ### Claim C3: partition-level time-monotonicity count -/

/-- C3: the time-monotonicity metric is a partition-level count: each
(entity, cycle) partition contributes 1 when its time-sorted indices have
some non-positive consecutive difference and 0 otherwise, so the total never
exceeds the number of partitions. -/
theorem time_monotonicity_violations_partition_level (meas_dis : List Sample) :
    time_monotonicity_violations meas_dis
        = ((partitionKeys meas_dis).map
            (fun k => if hasTimeViolation (partitionOf meas_dis k) = true then 1 else 0)).sum
    ∧ time_monotonicity_violations meas_dis ≤ (partitionKeys meas_dis).length := by
  unfold time_monotonicity_violations
  exact ⟨countP_eq_sum_map _ _, List.countP_le_length _⟩

/-! ### Claim C6: impedance positivity counters -/

/-- C6: impedance positivity yields two independent counters over the full
row set, one counting rows with Re ≤ 0 and one counting rows with Rct ≤ 0;
each depends only on its own column, a row failing both conditions counts
toward both, and Re values [0.05, -0.01, 0.03] give an Re count of 1. -/
theorem impedance_positivity_spec :
    (∀ imp : List ImpRow,
        (impedance_positivity imp).re_nonpos_count = (imp.map (fun r => r.Re)).countP RVal.nonpos
        ∧ (impedance_positivity imp).rct_nonpos_count
            = (imp.map (fun r => r.Rct)).countP RVal.nonpos
        ∧ (impedance_positivity imp).impedance_rows = imp.length)
    ∧ impedance_positivity [⟨"c", RVal.val (-1), RVal.val (-2)⟩] = ⟨1, 1, 1⟩
    ∧ (impedance_positivity
        [⟨"c", RVal.val 0.05, RVal.val 1⟩, ⟨"c", RVal.val (-0.01), RVal.val 1⟩,
          ⟨"c", RVal.val 0.03, RVal.val 1⟩]).re_nonpos_count = 1 := by
  refine ⟨fun imp => ⟨?_, ?_, rfl⟩, by decide, ?_⟩
  · rw [List.countP_map]
    rfl
  · rw [List.countP_map]
    rfl
  · show List.countP _ _ = 1
    norm_num [List.countP_cons, RVal.nonpos]

/-! ### Claim C10: all-NaN capacity partitions -/

/-- C10: for a non-empty partition whose capacity values are all NaN, the
maximum-capacity field of the cycle statistics record is the NaN sentinel;
the reduction is total and does not substitute zero. -/
theorem statOf_cap_max_all_nan (cell : String) (cyc : Int) (g : List Sample)
    (_hg : g ≠ []) (hcap : ∀ s ∈ g, s.Capacity = RVal.nan) :
    (statOf cell cyc g).cap_max_Ah = RVal.nan := by
  show npNanMax ((sortByT g).map fun s => s.Capacity) = RVal.nan
  unfold npNanMax
  have hnil : ((sortByT g).map fun s => s.Capacity).filterMap RVal.toVal = [] := by
    rw [List.filterMap_eq_nil_iff]
    intro a ha
    rcases List.mem_map.mp ha with ⟨s, hs, rfl⟩
    rw [hcap s ((List.perm_insertionSort tLe g).mem_iff.mp hs)]
    rfl
  rw [hnil]

/-- Witness for C10 at a concrete one-sample partition. -/
theorem statOf_cap_max_all_nan_witness :
    ([⟨"A", "discharge", 1, 0, RVal.val 1, RVal.val 4, RVal.val 25, RVal.nan⟩] : List Sample) ≠ []
    ∧ (statOf "A" 1
        [⟨"A", "discharge", 1, 0, RVal.val 1, RVal.val 4, RVal.val 25, RVal.nan⟩]).cap_max_Ah
        = RVal.nan :=
  ⟨by decide, statOf_cap_max_all_nan "A" 1 _ (by decide) (by decide)⟩

/-! ### Claim C7: dataset-wide counters broadcast into every row -/

/-- C7: the dataset-wide counters (time-monotonicity violation count and the
two impedance non-positivity counts) are computed once and copied verbatim
into every entity row of the summary table, so all rows agree on them. -/
theorem build_cell_summary_table_global_counters (cs : List CycleStat)
    (meas_dis : List Sample) (imp : List ImpRow) :
    ((build_cell_summary_table cs meas_dis imp).map
        (fun r => r.TimeMonotonicityViolations_allCells)
      = List.replicate (cellKeys cs).length (time_monotonicity_violations meas_dis))
    ∧ ((build_cell_summary_table cs meas_dis imp).map (fun r => r.Re_nonpos_allRows)
      = List.replicate (cellKeys cs).length (impedance_positivity imp).re_nonpos_count)
    ∧ ((build_cell_summary_table cs meas_dis imp).map (fun r => r.Rct_nonpos_allRows)
      = List.replicate (cellKeys cs).length (impedance_positivity imp).rct_nonpos_count)
    ∧ (build_cell_summary_table cs meas_dis imp).Pairwise (fun r1 r2 =>
        r1.TimeMonotonicityViolations_allCells = r2.TimeMonotonicityViolations_allCells
        ∧ r1.Re_nonpos_allRows = r2.Re_nonpos_allRows
        ∧ r1.Rct_nonpos_allRows = r2.Rct_nonpos_allRows) := by
  unfold build_cell_summary_table
  refine ⟨?_, ?_, ?_, ?_⟩
  · rw [List.map_map]
    exact List.map_const' _ _
  · rw [List.map_map]
    exact List.map_const' _ _
  · rw [List.map_map]
    exact List.map_const' _ _
  · exact List.pairwise_map.mpr (list_pairwise_of_forall (fun a b => ⟨rfl, rfl, rfl⟩) _)

/-! ### Claim C9: a partition is counted iff it has duplicate time indices -/

theorem diff_any_nonpos_iff (t : List Int) :
    ((List.zipWith (fun a b => a - b) t.tail t).any (fun d => decide (d ≤ 0)) = true)
      ↔ ¬ List.Chain' (· < ·) t := by
  induction t with
  | nil => simp
  | cons a t ih =>
    cases t with
    | nil => simp
    | cons b r =>
      rw [List.tail_cons, List.zipWith_cons_cons, List.any_cons, List.chain'_cons]
      rw [Bool.or_eq_true, decide_eq_true_eq, sub_nonpos]
      rw [List.tail_cons] at ih
      rw [ih]
      constructor
      · rintro (h | h) ⟨h1, h2⟩
        · exact absurd h1 (not_lt.mpr h)
        · exact h h2
      · intro h
        by_cases h1 : a < b
        · exact Or.inr (fun h2 => h ⟨h1, h2⟩)
        · exact Or.inl (not_lt.mp h1)

/-- C9: because the time-monotonicity check sorts each partition by time
index before differencing, a partition is counted as a violation exactly when
its time indices contain a duplicate; any partition with pairwise distinct
time indices, whatever its stored order, is never counted. -/
theorem hasTimeViolation_iff_dup (g : List Sample) :
    hasTimeViolation g = true ↔ ¬ (g.map (fun s => s.t_index)).Nodup := by
  have hsorted : List.Pairwise (· ≤ ·) ((sortByT g).map (fun s => s.t_index)) :=
    List.Pairwise.map (fun s : Sample => s.t_index)
      (fun a b (h : tLe a b) => h) (List.sorted_insertionSort tLe g)
  have hperm : ((sortByT g).map (fun s => s.t_index)).Perm (g.map fun s => s.t_index) :=
    (List.perm_insertionSort tLe g).map _
  have key : List.Pairwise (· < ·) ((sortByT g).map (fun s => s.t_index))
      ↔ (g.map (fun s => s.t_index)).Nodup := by
    constructor
    · intro h
      exact hperm.nodup_iff.mp (h.imp ne_of_lt)
    · intro h
      exact (hsorted.and (hperm.nodup_iff.mpr h)).imp
        (fun hab => lt_of_le_of_ne hab.1 hab.2)
  show ((List.zipWith (fun a b => a - b) ((sortByT g).map (fun s => s.t_index)).tail
      ((sortByT g).map (fun s => s.t_index))).any (fun d => decide (d ≤ 0)) = true) ↔ _
  rw [diff_any_nonpos_iff, List.chain'_iff_pairwise, key]

/-! ### Claim C4: sample standard deviation of current -/

theorem npStd_formula (qs : List ℚ) (h2 : 2 ≤ qs.length) :
    npStdSample (qs.map RVal.val)
      = RValR.val (Real.sqrt
          ((((qs.map (fun x => (x - qs.sum / (qs.length : ℚ)) ^ 2)).sum : ℚ) : ℝ)
            / ((qs.length : ℝ) - 1))) := by
  have hne : qs ≠ [] := by
    intro h
    rw [h] at h2
    simp at h2
  unfold npStdSample
  rw [npMean_map_val qs hne, List.map_map]
  have hco : ((fun x => (RVal.sub x (RVal.val (qs.sum / (qs.length : ℚ)))).mul
        (RVal.sub x (RVal.val (qs.sum / (qs.length : ℚ))))) ∘ RVal.val)
      = RVal.val ∘ (fun x : ℚ => (x - qs.sum / (qs.length : ℚ)) ^ 2) := by
    funext x
    show RVal.val ((x - qs.sum / (qs.length : ℚ)) * (x - qs.sum / (qs.length : ℚ)))
        = RVal.val ((x - qs.sum / (qs.length : ℚ)) ^ 2)
    rw [sq]
  rw [hco, ← List.map_map, npSum_map_val]
  show RValR.val (Real.sqrt
      (((qs.map (fun x : ℚ => (x - qs.sum / (qs.length : ℚ)) ^ 2)).sum : ℝ)
        / (((qs.map RVal.val).length : ℝ) - 1))) = _
  rw [List.length_map]

/-- C4: the per-cycle current standard deviation uses the sample (n-1)
denominator; with fewer than 2 samples it is the NaN sentinel, and with 2 or
more identical current values it is exactly 0. -/
theorem statOf_i_std_spec (cell : String) (cyc : Int) (g : List Sample) :
    (g.length < 2 → (statOf cell cyc g).i_std_A = RValR.nan)
    ∧ (∀ qs : List ℚ, 2 ≤ g.length →
        (sortByT g).map (fun s => s.Current_measured) = qs.map RVal.val →
        (statOf cell cyc g).i_std_A
          = RValR.val (Real.sqrt
              ((((qs.map (fun x => (x - qs.sum / (qs.length : ℚ)) ^ 2)).sum : ℚ) : ℝ)
                / ((qs.length : ℝ) - 1))))
    ∧ (∀ q : ℚ, 2 ≤ g.length → (∀ s ∈ g, s.Current_measured = RVal.val q) →
        (statOf cell cyc g).i_std_A = RValR.val 0) := by
  have hlen : ((sortByT g).map (fun s => s.Current_measured)).length = g.length := by
    rw [List.length_map]
    exact List.length_insertionSort tLe g
  have key : ∀ qs : List ℚ, 2 ≤ g.length →
      (sortByT g).map (fun s => s.Current_measured) = qs.map RVal.val →
      (statOf cell cyc g).i_std_A
        = RValR.val (Real.sqrt
            ((((qs.map (fun x => (x - qs.sum / (qs.length : ℚ)) ^ 2)).sum : ℚ) : ℝ)
              / ((qs.length : ℝ) - 1))) := by
    intro qs h2 hqs
    have hqlen : qs.length = g.length := by
      have h0 := congrArg List.length hqs
      rw [hlen, List.length_map] at h0
      exact h0.symm
    show (if 1 < ((sortByT g).map (fun s => s.Current_measured)).length
        then npStdSample ((sortByT g).map (fun s => s.Current_measured))
        else RValR.nan) = _
    rw [hqs, if_pos (by rw [List.length_map]; omega)]
    exact npStd_formula qs (by omega)
  refine ⟨?_, key, ?_⟩
  · intro h2
    show (if 1 < ((sortByT g).map (fun s => s.Current_measured)).length
        then npStdSample ((sortByT g).map (fun s => s.Current_measured))
        else RValR.nan) = RValR.nan
    rw [if_neg (by rw [hlen]; omega)]
  · intro q h2 hq
    have hn0 : (g.length : ℚ) ≠ 0 := Nat.cast_ne_zero.mpr (by omega)
    have hcur : (sortByT g).map (fun s => s.Current_measured)
        = (List.replicate g.length q).map RVal.val := by
      rw [List.map_replicate]
      rw [List.eq_replicate_iff]
      refine ⟨hlen, ?_⟩
      intro b hb
      rcases List.mem_map.mp hb with ⟨s, hs, rfl⟩
      exact hq s ((List.perm_insertionSort tLe g).mem_iff.mp hs)
    rw [key (List.replicate g.length q) h2 hcur]
    have hsum : ((List.replicate g.length q).map
        (fun x => (x - (List.replicate g.length q).sum
          / (((List.replicate g.length q).length : ℚ))) ^ 2)).sum = 0 := by
      rw [List.sum_replicate, List.length_replicate, nsmul_eq_mul]
      rw [mul_comm, mul_div_assoc, div_self hn0, mul_one]
      rw [List.map_replicate]
      simp [List.sum_replicate]
    rw [hsum]
    norm_num

/-- Witness for C4 at a one-sample and at a two-sample partition. -/
theorem statOf_i_std_spec_witness :
    (([⟨"A", "discharge", 1, 0, RVal.val 2, RVal.val 4, RVal.val 25, RVal.val 1⟩] :
          List Sample).length < 2
      ∧ (statOf "A" 1
          [⟨"A", "discharge", 1, 0, RVal.val 2, RVal.val 4, RVal.val 25, RVal.val 1⟩]).i_std_A
          = RValR.nan)
    ∧ (2 ≤ ([⟨"A", "discharge", 1, 0, RVal.val 2, RVal.val 4, RVal.val 25, RVal.val 1⟩,
            ⟨"A", "discharge", 1, 1, RVal.val 2, RVal.val 3, RVal.val 25, RVal.val 1⟩] :
          List Sample).length
      ∧ (statOf "A" 1
          [⟨"A", "discharge", 1, 0, RVal.val 2, RVal.val 4, RVal.val 25, RVal.val 1⟩,
            ⟨"A", "discharge", 1, 1, RVal.val 2, RVal.val 3, RVal.val 25, RVal.val 1⟩]).i_std_A
          = RValR.val 0) :=
  ⟨⟨by decide, (statOf_i_std_spec "A" 1 _).1 (by decide)⟩,
   ⟨by decide, (statOf_i_std_spec "A" 1 _).2.2 2 (by decide) (by decide)⟩⟩

/-! ### Claim C8: representative discharge cycle selection -/

theorem foldl_min_le_init (l : List Int) : ∀ m : Int, l.foldl min m ≤ m := by
  induction l with
  | nil => intro m; exact le_refl m
  | cons x t ih =>
    intro m
    rw [List.foldl_cons]
    exact le_trans (ih (min m x)) (min_le_left m x)

theorem foldl_min_le_mem (l : List Int) : ∀ m x : Int, x ∈ l → l.foldl min m ≤ x := by
  induction l with
  | nil => intro m x h; cases h
  | cons y t ih =>
    intro m x h
    rcases List.mem_cons.mp h with rfl | h2
    · rw [List.foldl_cons]
      exact le_trans (foldl_min_le_init t _) (min_le_right m x)
    · rw [List.foldl_cons]
      exact ih _ x h2

theorem foldl_min_mem (l : List Int) : ∀ m : Int, l.foldl min m = m ∨ l.foldl min m ∈ l := by
  induction l with
  | nil => intro m; exact Or.inl rfl
  | cons x t ih =>
    intro m
    rw [List.foldl_cons]
    rcases ih (min m x) with h | h
    · rw [h]
      rcases min_cases m x with ⟨h1, _⟩ | ⟨h1, _⟩
      · exact Or.inl h1
      · refine Or.inr ?_
        rw [h1]
        exact List.mem_cons_self x t
    · exact Or.inr (List.mem_cons_of_mem x h)

theorem pick_of_filter_nil (md : List Sample) (cell : String)
    (h : md.filter (fun s => decide (s.cell_id = cell)) = []) :
    pick_representative_discharge_cycle md cell
      = Except.error ("No discharge samples for cell " ++ cell) := by
  unfold pick_representative_discharge_cycle
  rw [h]

theorem pick_of_filter_cons (md : List Sample) (cell : String) (s : Sample) (rest : List Sample)
    (h : md.filter (fun s => decide (s.cell_id = cell)) = s :: rest) :
    pick_representative_discharge_cycle md cell
      = Except.ok (rest.foldl (fun m x => min m x.cycle_index) s.cycle_index,
          sortByT ((s :: rest).filter
            (fun x => decide
              (x.cycle_index = rest.foldl (fun m x => min m x.cycle_index) s.cycle_index)))) := by
  unfold pick_representative_discharge_cycle
  rw [h]

/-- C8: the representative cycle selector returns the discharge partition of
the requested entity with the smallest cycle index, sorted by time index,
together with that index; it fails with an error naming the entity exactly
when the entity has no discharge samples at all. -/
theorem pick_representative_spec (meas : List Sample) (cell : String) :
    (pick_representative_discharge_cycle (dischargeOnly meas) cell
        = Except.error ("No discharge samples for cell " ++ cell)
      ↔ ∀ s ∈ meas, s.operation_type = "discharge" → s.cell_id ≠ cell)
    ∧ (∀ (cyc : Int) (part : List Sample),
        pick_representative_discharge_cycle (dischargeOnly meas) cell = Except.ok (cyc, part) →
          (∃ s ∈ dischargeOnly meas, s.cell_id = cell ∧ s.cycle_index = cyc)
          ∧ (∀ s ∈ dischargeOnly meas, s.cell_id = cell → cyc ≤ s.cycle_index)
          ∧ List.Sorted tLe part
          ∧ part.Perm (((dischargeOnly meas).filter (fun s => decide (s.cell_id = cell))).filter
              (fun s => decide (s.cycle_index = cyc)))) := by
  have hmem : ∀ s : Sample, s ∈ dischargeOnly meas ↔ s ∈ meas ∧ s.operation_type = "discharge" := by
    intro s
    unfold dischargeOnly
    rw [List.mem_filter, decide_eq_true_eq]
  cases hs : (dischargeOnly meas).filter (fun s => decide (s.cell_id = cell)) with
  | nil =>
    rw [pick_of_filter_nil _ _ hs]
    constructor
    · constructor
      · intro _ s hsm hop hcell
        have hin : s ∈ (dischargeOnly meas).filter (fun s => decide (s.cell_id = cell)) :=
          List.mem_filter.mpr ⟨(hmem s).mpr ⟨hsm, hop⟩, decide_eq_true hcell⟩
        rw [hs] at hin
        cases hin
      · intro _
        rfl
    · intro cyc part h
      exact Except.noConfusion h
  | cons s rest =>
    rw [pick_of_filter_cons _ _ _ _ hs]
    have hsub_mem : ∀ x : Sample, x ∈ s :: rest → x ∈ dischargeOnly meas ∧ x.cell_id = cell := by
      intro x hx
      have hin : x ∈ (dischargeOnly meas).filter (fun s => decide (s.cell_id = cell)) := by
        rw [hs]
        exact hx
      rcases List.mem_filter.mp hin with ⟨h1, h2⟩
      exact ⟨h1, of_decide_eq_true h2⟩
    constructor
    · constructor
      · intro h
        exact Except.noConfusion h
      · intro hall
        exfalso
        have hnil : (dischargeOnly meas).filter (fun s => decide (s.cell_id = cell)) = [] := by
          rw [List.filter_eq_nil_iff]
          intro a ha
          rw [decide_eq_true_eq]
          exact hall a ((hmem a).mp ha).1 ((hmem a).mp ha).2
        rw [hs] at hnil
        exact List.noConfusion hnil
    · intro cyc part h
      rw [Except.ok.injEq, Prod.mk.injEq] at h
      obtain ⟨hc, hp⟩ := h
      subst hc
      subst hp
      have hfold : rest.foldl (fun m x => min m x.cycle_index) s.cycle_index
          = (rest.map (fun x => x.cycle_index)).foldl min s.cycle_index := by
        rw [List.foldl_map]
      refine ⟨?_, ?_, List.sorted_insertionSort tLe _, ?_⟩
      · rcases foldl_min_mem (rest.map fun x => x.cycle_index) s.cycle_index with h0 | h0
        · exact ⟨s, (hsub_mem s (List.mem_cons_self s rest)).1,
            (hsub_mem s (List.mem_cons_self s rest)).2, (hfold.trans h0).symm⟩
        · rcases List.mem_map.mp h0 with ⟨x, hx, hxc⟩
          exact ⟨x, (hsub_mem x (List.mem_cons_of_mem s hx)).1,
            (hsub_mem x (List.mem_cons_of_mem s hx)).2, hxc.trans hfold.symm⟩
      · intro s' hs' hcell'
        have hmemf : s' ∈ s :: rest := by
          rw [← hs]
          exact List.mem_filter.mpr ⟨hs', decide_eq_true hcell'⟩
        rcases List.mem_cons.mp hmemf with rfl | hrest
        · rw [hfold]
          exact foldl_min_le_init _ _
        · rw [hfold]
          exact foldl_min_le_mem _ _ _ (List.mem_map_of_mem _ hrest)
      · exact List.perm_insertionSort tLe _

/-- Witness for C8: a successful selection on a two-cycle cell and the
NotFound failure on a dataset with no discharge samples. -/
theorem pick_representative_spec_witness :
    (List.Sorted tLe [(⟨"A", "discharge", 1, 0, RVal.val 1, RVal.val 4, RVal.val 25, RVal.val 1⟩ : Sample)]
      ∧ ∀ s ∈ dischargeOnly exMeasC8, s.cell_id = "A" → (1 : Int) ≤ s.cycle_index)
    ∧ pick_representative_discharge_cycle (dischargeOnly
        [⟨"A", "charge", 1, 0, RVal.val 1, RVal.val 4, RVal.val 25, RVal.val 1⟩]) "A"
        = Except.error ("No discharge samples for cell " ++ "A") :=
  ⟨⟨((pick_representative_spec exMeasC8 "A").2 1
        [⟨"A", "discharge", 1, 0, RVal.val 1, RVal.val 4, RVal.val 25, RVal.val 1⟩] rfl).2.2.1,
    ((pick_representative_spec exMeasC8 "A").2 1
        [⟨"A", "discharge", 1, 0, RVal.val 1, RVal.val 4, RVal.val 25, RVal.val 1⟩] rfl).2.1⟩,
   (pick_representative_spec
        [⟨"A", "charge", 1, 0, RVal.val 1, RVal.val 4, RVal.val 25, RVal.val 1⟩] "A").1.mpr
     (by decide)⟩

/-! ### Claim C1: NaN policy of the per-entity aggregation -/

theorem npNanMedian_filter (l : List RValR) :
    npNanMedian (l.filter (fun v => !v.isNan)) = npNanMedian l := by
  have h : (l.filter (fun v => !v.isNan)).filterMap RValR.toVal = l.filterMap RValR.toVal := by
    induction l with
    | nil => rfl
    | cons x t ih =>
      cases x with
      | nan =>
        have h1 : List.filter (fun v => !v.isNan) (RValR.nan :: t)
            = List.filter (fun v => !v.isNan) t := rfl
        rw [h1, ih]
        rfl
      | val r =>
        have h1 : List.filter (fun v => !v.isNan) (RValR.val r :: t)
            = RValR.val r :: List.filter (fun v => !v.isNan) t := rfl
        have h2 : List.filterMap RValR.toVal (RValR.val r :: List.filter (fun v => !v.isNan) t)
            = r :: List.filterMap RValR.toVal (List.filter (fun v => !v.isNan) t) := rfl
        rw [h1, h2, ih]
        rfl
  unfold npNanMedian
  rw [h]

theorem filter_nonNan_eq_map (l : List RVal) :
    l.filter (fun v => !v.isNan) = (l.filterMap RVal.toVal).map RVal.val := by
  induction l with
  | nil => rfl
  | cons x t ih =>
    cases x with
    | nan =>
      have h1 : List.filter (fun v => !v.isNan) (RVal.nan :: t)
          = List.filter (fun v => !v.isNan) t := rfl
      rw [h1, ih]
      rfl
    | val q =>
      have h1 : List.filter (fun v => !v.isNan) (RVal.val q :: t)
          = RVal.val q :: List.filter (fun v => !v.isNan) t := rfl
      rw [h1, ih]
      rfl

theorem seriesMean_eq_npMean_filter (l : List RVal) :
    seriesMean l = npMean (l.filter (fun v => !v.isNan)) := by
  rw [filter_nonNan_eq_map]
  unfold seriesMean
  cases hfm : l.filterMap RVal.toVal with
  | nil => rfl
  | cons q qs =>
    rw [npMean_map_val (q :: qs) (List.cons_ne_nil q qs)]

/-- C1: in the per-entity summary row, NaN sentinels arising from degenerate
per-cycle statistics are excluded from every aggregated mean and median:
for each column, the aggregated value over an entity's cycle records that
contain a NaN equals the plain mean (respectively median) of the non-NaN
values of that column — NaN is neither coerced to zero nor allowed to
poison the result. -/
theorem summary_aggregation_excludes_nan (time_viol : Nat) (imp_pos : ImpCounts)
    (cs : List CycleStat) (cell : String) :
    (RVal.nan ∈ (sortByCycle (cs.filter (fun r => decide (r.cell_id = cell)))).map
          (fun r => r.i_mean_A) →
        (summaryRowOf time_viol imp_pos cs cell).I_mean_A
          = npMean (((sortByCycle (cs.filter (fun r => decide (r.cell_id = cell)))).map
              (fun r => r.i_mean_A)).filter (fun v => !v.isNan)))
    ∧ (RVal.nan ∈ (sortByCycle (cs.filter (fun r => decide (r.cell_id = cell)))).map
          (fun r => r.v_mono_frac) →
        (summaryRowOf time_viol imp_pos cs cell).V_monotonic_frac_mean
          = npMean (((sortByCycle (cs.filter (fun r => decide (r.cell_id = cell)))).map
              (fun r => r.v_mono_frac)).filter (fun v => !v.isNan)))
    ∧ (RVal.nan ∈ (sortByCycle (cs.filter (fun r => decide (r.cell_id = cell)))).map
          (fun r => r.t_min_C) →
        (summaryRowOf time_viol imp_pos cs cell).Tmin_mean_C
          = npMean (((sortByCycle (cs.filter (fun r => decide (r.cell_id = cell)))).map
              (fun r => r.t_min_C)).filter (fun v => !v.isNan)))
    ∧ (RVal.nan ∈ (sortByCycle (cs.filter (fun r => decide (r.cell_id = cell)))).map
          (fun r => r.t_max_C) →
        (summaryRowOf time_viol imp_pos cs cell).Tmax_mean_C
          = npMean (((sortByCycle (cs.filter (fun r => decide (r.cell_id = cell)))).map
              (fun r => r.t_max_C)).filter (fun v => !v.isNan)))
    ∧ ((∃ v ∈ (sortByCycle (cs.filter (fun r => decide (r.cell_id = cell)))).map
          (fun r => r.i_std_A), v.isNan = true) →
        (summaryRowOf time_viol imp_pos cs cell).I_std_median_A
          = npNanMedian (((sortByCycle (cs.filter (fun r => decide (r.cell_id = cell)))).map
              (fun r => r.i_std_A)).filter (fun v => !v.isNan))) := by
  refine ⟨?_, ?_, ?_, ?_, ?_⟩
  · intro _h
    exact seriesMean_eq_npMean_filter _
  · intro _h
    exact seriesMean_eq_npMean_filter _
  · intro _h
    exact seriesMean_eq_npMean_filter _
  · intro _h
    exact seriesMean_eq_npMean_filter _
  · intro _h
    exact (npNanMedian_filter _).symm

/-- Witness for C1 on a concrete statistics table: the one-sample cycle 1
contributes a NaN voltage-monotonic fraction, and the entity mean of that
column equals the mean of the non-NaN values (here 1.0). -/
theorem summary_aggregation_excludes_nan_witness :
    RVal.nan ∈ (sortByCycle (exStatsC1.filter (fun r => decide (r.cell_id = "A")))).map
        (fun r => r.v_mono_frac)
    ∧ (summaryRowOf 7 ⟨2, 1, 1⟩ exStatsC1 "A").V_monotonic_frac_mean
        = npMean (((sortByCycle (exStatsC1.filter (fun r => decide (r.cell_id = "A")))).map
            (fun r => r.v_mono_frac)).filter (fun v => !v.isNan))
    ∧ (summaryRowOf 7 ⟨2, 1, 1⟩ exStatsC1 "A").V_monotonic_frac_mean = RVal.val 1 :=
  ⟨by decide,
   (summary_aggregation_excludes_nan 7 ⟨2, 1, 1⟩ exStatsC1 "A").2.1 (by decide),
   by
    rw [(summary_aggregation_excludes_nan 7 ⟨2, 1, 1⟩ exStatsC1 "A").2.1 (by decide)]
    have h : ((sortByCycle (exStatsC1.filter (fun r => decide (r.cell_id = "A")))).map
        (fun r => r.v_mono_frac)).filter (fun v => !v.isNan) = [RVal.val 1] := by decide
    rw [h]
    exact npMean_const (by decide) (by decide)⟩

/-! ### Claim C2: rank correlation machinery -/

theorem RVal.mul_nan_left (y : RVal) : RVal.mul RVal.nan y = RVal.nan := by
  cases y <;> rfl

theorem RVal.mul_nan_right (x : RVal) : RVal.mul x RVal.nan = RVal.nan := by
  cases x <;> rfl

theorem RVal.add_eq_val {u v : RVal} {w : ℚ} (h : RVal.add u v = RVal.val w) :
    ∃ a b : ℚ, u = RVal.val a ∧ v = RVal.val b ∧ w = a + b := by
  cases u with
  | nan =>
    rw [RVal.add_nan_left] at h
    exact RVal.noConfusion h
  | val a =>
    cases v with
    | nan =>
      rw [RVal.add_nan_right] at h
      exact RVal.noConfusion h
    | val b =>
      injection h with h'
      exact ⟨a, b, rfl, rfl, h'.symm⟩

theorem RVal.mul_eq_val {u v : RVal} {w : ℚ} (h : RVal.mul u v = RVal.val w) :
    ∃ a b : ℚ, u = RVal.val a ∧ v = RVal.val b ∧ w = a * b := by
  cases u with
  | nan =>
    rw [RVal.mul_nan_left] at h
    exact RVal.noConfusion h
  | val a =>
    cases v with
    | nan =>
      rw [RVal.mul_nan_right] at h
      exact RVal.noConfusion h
    | val b =>
      injection h with h'
      exact ⟨a, b, rfl, rfl, h'.symm⟩

theorem dotSum_self_nonneg : ∀ {l : List RVal} {b : ℚ}, dotSum l l = RVal.val b → 0 ≤ b := by
  intro l
  induction l with
  | nil =>
    intro b h
    injection h with h'
    rw [← h']
  | cons x t ih =>
    intro b h
    have h0 : RVal.add (x.mul x) (dotSum t t) = RVal.val b := h
    rcases RVal.add_eq_val h0 with ⟨a, c, ha, hc, rfl⟩
    rcases RVal.mul_eq_val ha with ⟨p, q, hp, hq, rfl⟩
    have hpq : p = q := by
      rw [hp] at hq
      injection hq
    rw [← hpq]
    exact add_nonneg (mul_self_nonneg p) (ih hc)

theorem cauchy_list : ∀ (x y : List RVal) (a b c : ℚ),
    dotSum x y = RVal.val a → dotSum x x = RVal.val b → dotSum y y = RVal.val c →
    a ^ 2 ≤ b * c := by
  intro x
  induction x with
  | nil =>
    intro y a b c ha hb hc
    have ha' : (0 : ℚ) = a := by injection ha
    have hb' : (0 : ℚ) = b := by injection hb
    rw [← ha', ← hb']
    norm_num
  | cons x0 xt ih =>
    intro y a b c ha hb hc
    cases y with
    | nil =>
      have ha' : (0 : ℚ) = a := by injection ha
      have hc' : (0 : ℚ) = c := by injection hc
      rw [← ha', ← hc']
      norm_num
    | cons y0 yt =>
      have ha0 : RVal.add (x0.mul y0) (dotSum xt yt) = RVal.val a := ha
      have hb0 : RVal.add (x0.mul x0) (dotSum xt xt) = RVal.val b := hb
      have hc0 : RVal.add (y0.mul y0) (dotSum yt yt) = RVal.val c := hc
      rcases RVal.add_eq_val ha0 with ⟨a1, a2, ha1, ha2, rfl⟩
      rcases RVal.add_eq_val hb0 with ⟨b1, b2, hb1, hb2, rfl⟩
      rcases RVal.add_eq_val hc0 with ⟨c1, c2, hc1, hc2, rfl⟩
      rcases RVal.mul_eq_val ha1 with ⟨p, q, hx0, hy0, rfl⟩
      have hb1' : b1 = p * p := by
        rw [hx0] at hb1
        injection hb1 with h'
        exact h'.symm
      have hc1' : c1 = q * q := by
        rw [hy0] at hc1
        injection hc1 with h'
        exact h'.symm
      subst hb1'
      subst hc1'
      have hIH : a2 ^ 2 ≤ b2 * c2 := ih yt a2 b2 c2 ha2 hb2 hc2
      have hb2n : 0 ≤ b2 := dotSum_self_nonneg hb2
      have hc2n : 0 ≤ c2 := dotSum_self_nonneg hc2
      have hD : 0 ≤ b2 * c2 - a2 ^ 2 := sub_nonneg.mpr hIH
      rcases eq_or_lt_of_le hb2n with hb20 | hb2pos
      · have ha20 : a2 = 0 := by nlinarith [sq_nonneg a2]
        rw [ha20, ← hb20]
        nlinarith [mul_nonneg (mul_self_nonneg p) hc2n, sq_nonneg (p * q)]
      · nlinarith [sq_nonneg (p * a2 - q * b2), sq_nonneg p, hD, hb2pos.le,
          mul_nonneg (sq_nonneg p) hD, mul_nonneg hb2pos.le hD]

theorem spearman_eq (xs ys : List RVal) :
    spearman_corr xs ys =
      if (rankAvg xs).length < 3 then RValR.nan
      else
        match dotSum (center (rankAvg xs)) (center (rankAvg ys)),
            dotSum (center (rankAvg xs)) (center (rankAvg xs)),
            dotSum (center (rankAvg ys)) (center (rankAvg ys)) with
        | RVal.val a, RVal.val b, RVal.val c =>
            if Real.sqrt ((b : ℝ) * (c : ℝ)) = 0 then RValR.nan
            else RValR.val ((a : ℝ) / Real.sqrt ((b : ℝ) * (c : ℝ)))
        | _, _, _ => RValR.nan := rfl

theorem spearman_corr_val_bound (xs ys : List RVal) (r : ℝ)
    (h : spearman_corr xs ys = RValR.val r) : -1 ≤ r ∧ r ≤ 1 := by
  rw [spearman_eq] at h
  by_cases hlen : (rankAvg xs).length < 3
  · rw [if_pos hlen] at h
    exact RValR.noConfusion h
  · rw [if_neg hlen] at h
    rcases hxy : dotSum (center (rankAvg xs)) (center (rankAvg ys)) with _ | a
    · rw [hxy] at h
      simp at h
    · rcases hxx : dotSum (center (rankAvg xs)) (center (rankAvg xs)) with _ | b
      · rw [hxy, hxx] at h
        simp at h
      · rcases hyy : dotSum (center (rankAvg ys)) (center (rankAvg ys)) with _ | c
        · rw [hxy, hxx, hyy] at h
          simp at h
        · rw [hxy, hxx, hyy] at h
          have h' : (if Real.sqrt ((b : ℝ) * (c : ℝ)) = 0 then RValR.nan
              else RValR.val ((a : ℝ) / Real.sqrt ((b : ℝ) * (c : ℝ)))) = RValR.val r := h
          by_cases h0 : Real.sqrt ((b : ℝ) * (c : ℝ)) = 0
          · rw [if_pos h0] at h'
            exact RValR.noConfusion h'
          · rw [if_neg h0] at h'
            injection h' with hr
            have hcs : (a : ℚ) ^ 2 ≤ b * c := cauchy_list _ _ a b c hxy hxx hyy
            have hbn : (0 : ℚ) ≤ b := dotSum_self_nonneg hxx
            have hcn : (0 : ℚ) ≤ c := dotSum_self_nonneg hyy
            have hbr : (0 : ℝ) ≤ (b : ℝ) := by exact_mod_cast hbn
            have hcr : (0 : ℝ) ≤ (c : ℝ) := by exact_mod_cast hcn
            have hbc : (0 : ℝ) < (b : ℝ) * (c : ℝ) := by
              rcases lt_or_eq_of_le (mul_nonneg hbr hcr) with hlt | heq
              · exact hlt
              · exact absurd (by rw [← heq]; exact Real.sqrt_zero) h0
            have hsq : (0 : ℝ) < Real.sqrt ((b : ℝ) * (c : ℝ)) := Real.sqrt_pos.mpr hbc
            have habs : |(a : ℝ)| ≤ Real.sqrt ((b : ℝ) * (c : ℝ)) := by
              rw [← Real.sqrt_sq_eq_abs]
              apply Real.sqrt_le_sqrt
              exact_mod_cast hcs
            have hrr : |r| ≤ 1 := by
              rw [← hr, abs_div, abs_of_nonneg (Real.sqrt_nonneg _)]
              rw [div_le_one hsq]
              exact habs
            exact abs_le.mp hrr

theorem rankAvg_length (xs : List RVal) : (rankAvg xs).length = xs.length := by
  unfold rankAvg
  rw [List.length_map]

theorem spearman_short (xs ys : List RVal) (h : xs.length < 3) :
    spearman_corr xs ys = RValR.nan := by
  rw [spearman_eq, if_pos]
  rwa [rankAvg_length]

theorem center_const_zero {l : List RVal} {m : ℚ} (hne : l ≠ []) (h : ∀ v ∈ l, v = RVal.val m) :
    ∀ v ∈ center l, v = RVal.val 0 := by
  intro v hv
  rcases List.mem_map.mp hv with ⟨w, hw, rfl⟩
  rw [h w hw, npMean_const hne h]
  show RVal.val (m - m) = RVal.val 0
  rw [sub_self]

theorem dotSum_self_zero {l : List RVal} (h : ∀ v ∈ l, v = RVal.val 0) :
    dotSum l l = RVal.val 0 := by
  unfold dotSum
  rw [List.zipWith_same]
  have hall : ∀ v ∈ l.map (fun a => a.mul a), v = RVal.val 0 := by
    intro v hv
    rcases List.mem_map.mp hv with ⟨w, hw, rfl⟩
    rw [h w hw]
    show RVal.val (0 * 0) = RVal.val 0
    rw [mul_zero]
  rw [npSum_const hall]
  rw [mul_zero]

theorem rankAvg_const {xs : List RVal} {q : ℚ} (h : ∀ v ∈ xs, v = RVal.val q) :
    ∃ m : ℚ, ∀ v ∈ rankAvg xs, v = RVal.val m := by
  refine ⟨(xs.countP (fun w => w.ltVal q) : ℚ)
      + ((xs.countP (fun w => w.eqVal q) : ℚ) + 1) / 2, ?_⟩
  intro v hv
  rcases List.mem_map.mp hv with ⟨w, hw, rfl⟩
  rw [h w hw]
  rfl

theorem spearman_const_left (xs ys : List RVal) (q : ℚ)
    (hconst : ∀ v ∈ xs, v = RVal.val q) : spearman_corr xs ys = RValR.nan := by
  rw [spearman_eq]
  by_cases hlen : (rankAvg xs).length < 3
  · rw [if_pos hlen]
  · rw [if_neg hlen]
    have hxne : rankAvg xs ≠ [] := by
      intro h0
      rw [h0] at hlen
      exact hlen (by norm_num)
    rcases rankAvg_const hconst with ⟨m, hx⟩
    have hxc : ∀ v ∈ center (rankAvg xs), v = RVal.val 0 := center_const_zero hxne hx
    have hxx : dotSum (center (rankAvg xs)) (center (rankAvg xs)) = RVal.val 0 :=
      dotSum_self_zero hxc
    rcases hxy : dotSum (center (rankAvg xs)) (center (rankAvg ys)) with _ | a
    · rcases hyy : dotSum (center (rankAvg ys)) (center (rankAvg ys)) with _ | c <;>
        rw [hxx]
    · rcases hyy : dotSum (center (rankAvg ys)) (center (rankAvg ys)) with _ | c
      · rw [hxx]
        try rfl
      · rw [hxx]
        show (if Real.sqrt (((0 : ℚ) : ℝ) * (c : ℝ)) = 0 then RValR.nan
            else RValR.val ((a : ℝ) / Real.sqrt (((0 : ℚ) : ℝ) * (c : ℝ)))) = RValR.nan
        rw [if_pos (by push_cast; rw [zero_mul, Real.sqrt_zero])]

theorem spearman_const_right (xs ys : List RVal) (q : ℚ)
    (hconst : ∀ v ∈ ys, v = RVal.val q) : spearman_corr xs ys = RValR.nan := by
  rw [spearman_eq]
  by_cases hlen : (rankAvg xs).length < 3
  · rw [if_pos hlen]
  · rw [if_neg hlen]
    by_cases hyne : rankAvg ys = []
    · have hyc : center (rankAvg ys) = [] := by
        rw [hyne]
        rfl
      have hxy : dotSum (center (rankAvg xs)) (center (rankAvg ys)) = RVal.val 0 := by
        rw [hyc]
        unfold dotSum
        rw [List.zipWith_nil_right]
        rfl
      have hyy : dotSum (center (rankAvg ys)) (center (rankAvg ys)) = RVal.val 0 := by
        rw [hyc]
        rfl
      rcases hxx : dotSum (center (rankAvg xs)) (center (rankAvg xs)) with _ | b
      · rw [hxy, hyy]
        try rfl
      · rw [hxy, hyy]
        show (if Real.sqrt ((b : ℝ) * ((0 : ℚ) : ℝ)) = 0 then RValR.nan
            else RValR.val (((0 : ℚ) : ℝ) / Real.sqrt ((b : ℝ) * ((0 : ℚ) : ℝ)))) = RValR.nan
        rw [if_pos (by push_cast; rw [mul_zero, Real.sqrt_zero])]
    · rcases rankAvg_const hconst with ⟨m, hy⟩
      have hyc : ∀ v ∈ center (rankAvg ys), v = RVal.val 0 := center_const_zero hyne hy
      have hyy : dotSum (center (rankAvg ys)) (center (rankAvg ys)) = RVal.val 0 :=
        dotSum_self_zero hyc
      rcases hxy : dotSum (center (rankAvg xs)) (center (rankAvg ys)) with _ | a
      · rcases hxx : dotSum (center (rankAvg xs)) (center (rankAvg xs)) with _ | b <;>
          rw [hyy]
      · rcases hxx : dotSum (center (rankAvg xs)) (center (rankAvg xs)) with _ | b
        · rw [hyy]
          try rfl
        · rw [hyy]
          show (if Real.sqrt ((b : ℝ) * ((0 : ℚ) : ℝ)) = 0 then RValR.nan
              else RValR.val ((a : ℝ) / Real.sqrt ((b : ℝ) * ((0 : ℚ) : ℝ)))) = RValR.nan
          rw [if_pos (by push_cast; rw [mul_zero, Real.sqrt_zero])]

theorem rankAvg_sorted_inc : ∀ (qs : List ℚ), qs.Pairwise (· < ·) →
    rankAvg (qs.map RVal.val)
      = (List.range qs.length).map (fun i : ℕ => RVal.val ((i : ℚ) + 1)) := by
  intro qs h
  induction qs with
  | nil => rfl
  | cons q t ih =>
    rcases List.pairwise_cons.mp h with ⟨h1, h2⟩
    have hcl : List.countP (fun w => w.ltVal q) ((q :: t).map RVal.val) = 0 := by
      rw [List.countP_eq_zero]
      intro w hw
      rcases List.mem_map.mp hw with ⟨y, hy, rfl⟩
      show ¬ (RVal.ltVal (RVal.val y) q = true)
      simp only [RVal.ltVal, decide_eq_true_eq]
      rcases List.mem_cons.mp hy with rfl | hy2
      · exact lt_irrefl y
      · exact not_lt.mpr (le_of_lt (h1 y hy2))
    have hce : List.countP (fun w => w.eqVal q) ((q :: t).map RVal.val) = 1 := by
      rw [List.map_cons, List.countP_cons]
      have h0 : List.countP (fun w => w.eqVal q) (t.map RVal.val) = 0 := by
        rw [List.countP_eq_zero]
        intro w hw
        rcases List.mem_map.mp hw with ⟨y, hy, rfl⟩
        show ¬ (RVal.eqVal (RVal.val y) q = true)
        simp only [RVal.eqVal, decide_eq_true_eq]
        exact ne_of_gt (h1 y hy)
      rw [h0]
      simp [RVal.eqVal]
    have hhead : rankOf ((q :: t).map RVal.val) (RVal.val q) = RVal.val 1 := by
      show RVal.val ((List.countP (fun w => w.ltVal q) ((q :: t).map RVal.val) : ℚ)
          + ((List.countP (fun w => w.eqVal q) ((q :: t).map RVal.val) : ℚ) + 1) / 2)
          = RVal.val 1
      rw [hcl, hce]
      norm_num
    have htail : ∀ y ∈ t, rankOf ((q :: t).map RVal.val) (RVal.val y)
        = RVal.add (rankOf (t.map RVal.val) (RVal.val y)) (RVal.val 1) := by
      intro y hy
      have hl : List.countP (fun w => w.ltVal y) ((q :: t).map RVal.val)
          = List.countP (fun w => w.ltVal y) (t.map RVal.val) + 1 := by
        rw [List.map_cons, List.countP_cons]
        simp [RVal.ltVal, h1 y hy]
      have he : List.countP (fun w => w.eqVal y) ((q :: t).map RVal.val)
          = List.countP (fun w => w.eqVal y) (t.map RVal.val) := by
        rw [List.map_cons, List.countP_cons]
        simp [RVal.eqVal, ne_of_lt (h1 y hy)]
      show RVal.val ((List.countP (fun w => w.ltVal y) ((q :: t).map RVal.val) : ℚ)
          + ((List.countP (fun w => w.eqVal y) ((q :: t).map RVal.val) : ℚ) + 1) / 2)
          = RVal.add (RVal.val ((List.countP (fun w => w.ltVal y) (t.map RVal.val) : ℚ)
            + ((List.countP (fun w => w.eqVal y) (t.map RVal.val) : ℚ) + 1) / 2)) (RVal.val 1)
      rw [hl, he]
      show RVal.val _ = RVal.val _
      congr 1
      push_cast
      ring
    show rankOf ((q :: t).map RVal.val) (RVal.val q)
        :: (t.map RVal.val).map (rankOf ((q :: t).map RVal.val))
      = (List.range (q :: t).length).map (fun i : ℕ => RVal.val ((i : ℚ) + 1))
    rw [hhead]
    have ht2 : (t.map RVal.val).map (rankOf ((q :: t).map RVal.val))
        = (rankAvg (t.map RVal.val)).map (fun v => RVal.add v (RVal.val 1)) := by
      unfold rankAvg
      rw [List.map_map, List.map_map, List.map_map]
      apply List.map_congr_left
      intro y hy
      exact htail y hy
    rw [ht2, ih h2]
    rw [List.length_cons, List.range_succ_eq_map, List.map_cons, List.map_map, List.map_map]
    congr 1
    · norm_num
    · apply List.map_congr_left
      intro i _
      show RVal.add (RVal.val ((i : ℚ) + 1)) (RVal.val 1) = RVal.val (((i + 1 : ℕ) : ℚ) + 1)
      show RVal.val ((i : ℚ) + 1 + 1) = RVal.val (((i + 1 : ℕ) : ℚ) + 1)
      congr 1
      push_cast
      ring

theorem rankAvg_sorted_dec : ∀ (qs : List ℚ), qs.Pairwise (· > ·) →
    rankAvg (qs.map RVal.val)
      = (List.range qs.length).map (fun i : ℕ => RVal.val ((qs.length : ℚ) - (i : ℚ))) := by
  intro qs h
  induction qs with
  | nil => rfl
  | cons q t ih =>
    rcases List.pairwise_cons.mp h with ⟨h1, h2⟩
    have hcl : List.countP (fun w => w.ltVal q) ((q :: t).map RVal.val) = t.length := by
      rw [List.map_cons, List.countP_cons]
      have h0 : List.countP (fun w => w.ltVal q) (t.map RVal.val) = t.length := by
        rw [← List.length_map t RVal.val, List.countP_eq_length]
        intro w hw
        rcases List.mem_map.mp hw with ⟨y, hy, rfl⟩
        show RVal.ltVal (RVal.val y) q = true
        simp only [RVal.ltVal, decide_eq_true_eq]
        exact h1 y hy
      rw [h0]
      simp [RVal.ltVal]
    have hce : List.countP (fun w => w.eqVal q) ((q :: t).map RVal.val) = 1 := by
      rw [List.map_cons, List.countP_cons]
      have h0 : List.countP (fun w => w.eqVal q) (t.map RVal.val) = 0 := by
        rw [List.countP_eq_zero]
        intro w hw
        rcases List.mem_map.mp hw with ⟨y, hy, rfl⟩
        show ¬ (RVal.eqVal (RVal.val y) q = true)
        simp only [RVal.eqVal, decide_eq_true_eq]
        exact ne_of_lt (h1 y hy)
      rw [h0]
      simp [RVal.eqVal]
    have hhead : rankOf ((q :: t).map RVal.val) (RVal.val q) = RVal.val ((t.length : ℚ) + 1) := by
      show RVal.val ((List.countP (fun w => w.ltVal q) ((q :: t).map RVal.val) : ℚ)
          + ((List.countP (fun w => w.eqVal q) ((q :: t).map RVal.val) : ℚ) + 1) / 2)
          = RVal.val ((t.length : ℚ) + 1)
      rw [hcl, hce]
      norm_num
    have htail : ∀ y ∈ t, rankOf ((q :: t).map RVal.val) (RVal.val y)
        = rankOf (t.map RVal.val) (RVal.val y) := by
      intro y hy
      have hl : List.countP (fun w => w.ltVal y) ((q :: t).map RVal.val)
          = List.countP (fun w => w.ltVal y) (t.map RVal.val) := by
        rw [List.map_cons, List.countP_cons]
        simp [RVal.ltVal, not_lt.mpr (le_of_lt (h1 y hy))]
      have he : List.countP (fun w => w.eqVal y) ((q :: t).map RVal.val)
          = List.countP (fun w => w.eqVal y) (t.map RVal.val) := by
        rw [List.map_cons, List.countP_cons]
        simp [RVal.eqVal, ne_of_gt (h1 y hy)]
      show RVal.val ((List.countP (fun w => w.ltVal y) ((q :: t).map RVal.val) : ℚ)
          + ((List.countP (fun w => w.eqVal y) ((q :: t).map RVal.val) : ℚ) + 1) / 2)
          = RVal.val ((List.countP (fun w => w.ltVal y) (t.map RVal.val) : ℚ)
            + ((List.countP (fun w => w.eqVal y) (t.map RVal.val) : ℚ) + 1) / 2)
      rw [hl, he]
    show rankOf ((q :: t).map RVal.val) (RVal.val q)
        :: (t.map RVal.val).map (rankOf ((q :: t).map RVal.val))
      = (List.range (q :: t).length).map (fun i : ℕ => RVal.val (((q :: t).length : ℚ) - (i : ℚ)))
    rw [hhead]
    have ht2 : (t.map RVal.val).map (rankOf ((q :: t).map RVal.val))
        = rankAvg (t.map RVal.val) := by
      unfold rankAvg
      rw [List.map_map, List.map_map]
      apply List.map_congr_left
      intro y hy
      exact htail y hy
    rw [ht2, ih h2]
    rw [List.length_cons, List.range_succ_eq_map, List.map_cons, List.map_map]
    congr 1
    · congr 1
      push_cast
      ring
    · apply List.map_congr_left
      intro i _
      show RVal.val ((t.length : ℚ) - (i : ℚ)) = RVal.val (((t.length + 1 : ℕ) : ℚ) - ((i + 1 : ℕ) : ℚ))
      congr 1
      push_cast
      ring

theorem center_map_val (us : List ℚ) (hne : us ≠ []) :
    center (us.map RVal.val) = (us.map (fun u => u - us.sum / (us.length : ℚ))).map RVal.val := by
  unfold center
  rw [npMean_map_val us hne, List.map_map, List.map_map]
  apply List.map_congr_left
  intro a _
  rfl

theorem dotSum_map_val (us vs : List ℚ) :
    dotSum (us.map RVal.val) (vs.map RVal.val)
      = RVal.val ((List.zipWith (· * ·) us vs).sum) := by
  induction us generalizing vs with
  | nil => cases vs <;> rfl
  | cons u ut ih =>
    cases vs with
    | nil => rfl
    | cons v vt =>
      show RVal.add (RVal.mul (RVal.val u) (RVal.val v))
          (dotSum (ut.map RVal.val) (vt.map RVal.val))
        = RVal.val ((List.zipWith (· * ·) (u :: ut) (v :: vt)).sum)
      rw [ih]
      show RVal.val (u * v + (List.zipWith (· * ·) ut vt).sum)
        = RVal.val ((List.zipWith (· * ·) (u :: ut) (v :: vt)).sum)
      rw [List.zipWith_cons_cons, List.sum_cons]

theorem sum_map_mul_self_nonneg (us : List ℚ) : 0 ≤ (us.map (fun a => a * a)).sum := by
  induction us with
  | nil => norm_num
  | cons u t ih =>
    rw [List.map_cons, List.sum_cons]
    exact add_nonneg (mul_self_nonneg u) ih

theorem sum_map_mul_self_eq_zero (us : List ℚ) (h : (us.map (fun a => a * a)).sum = 0) :
    ∀ u ∈ us, u = 0 := by
  induction us with
  | nil => intro u hu; cases hu
  | cons u t ih =>
    rw [List.map_cons, List.sum_cons] at h
    have h1 : u * u = 0 ∧ (t.map (fun a => a * a)).sum = 0 := by
      constructor <;> nlinarith [mul_self_nonneg u, sum_map_mul_self_nonneg t]
    intro w hw
    rcases List.mem_cons.mp hw with rfl | hw2
    · exact mul_self_eq_zero.mp h1.1
    · exact ih h1.2 w hw2

theorem sum_map_const_sub (us : List ℚ) (c : ℚ) :
    (us.map (fun u => c - u)).sum = (us.length : ℚ) * c - us.sum := by
  induction us with
  | nil => norm_num
  | cons u t ih =>
    rw [List.map_cons, List.sum_cons, ih, List.sum_cons, List.length_cons]
    push_cast
    ring

theorem sum_map_neg_eq (us : List ℚ) (f : ℚ → ℚ) :
    (us.map (fun u => - f u)).sum = - (us.map f).sum := by
  induction us with
  | nil => norm_num
  | cons u t ih =>
    rw [List.map_cons, List.sum_cons, ih, List.map_cons, List.sum_cons]
    ring

theorem zipWith_self_sum_pos (C : List ℚ) (u v : ℚ) (hu : u ∈ C) (hv : v ∈ C) (hne : u ≠ v) :
    0 < (List.zipWith (· * ·) C C).sum := by
  have hnn : 0 ≤ (List.zipWith (· * ·) C C).sum := by
    rw [List.zipWith_same]
    exact sum_map_mul_self_nonneg C
  rcases lt_or_eq_of_le hnn with h0 | h0
  · exact h0
  · exfalso
    rw [List.zipWith_same] at h0
    have hz : ∀ w ∈ C, w = 0 := sum_map_mul_self_eq_zero C h0.symm
    exact hne ((hz u hu).trans (hz v hv).symm)

theorem spearman_inc_inc (qs ps : List ℚ) (h3 : 3 ≤ qs.length) (hlen : ps.length = qs.length)
    (hq : qs.Pairwise (· < ·)) (hp : ps.Pairwise (· < ·)) :
    spearman_corr (qs.map RVal.val) (ps.map RVal.val) = RValR.val 1 := by
  set n := qs.length with hn
  set R : List ℚ := (List.range n).map (fun i : ℕ => (i : ℚ) + 1) with hR
  have hRlen : R.length = n := by rw [hR, List.length_map, List.length_range]
  have hRne : R ≠ [] := by
    intro h0
    rw [h0] at hRlen
    simp at hRlen
    omega
  have hx : rankAvg (qs.map RVal.val) = R.map RVal.val := by
    rw [rankAvg_sorted_inc qs hq, hR, List.map_map]
    rfl
  have hy : rankAvg (ps.map RVal.val) = R.map RVal.val := by
    rw [rankAvg_sorted_inc ps hp, hlen, hR, List.map_map]
    rfl
  set C : List ℚ := R.map (fun u => u - R.sum / (R.length : ℚ)) with hC
  have hxc : center (rankAvg (qs.map RVal.val)) = C.map RVal.val := by
    rw [hx, center_map_val R hRne, hC]
  have hyc : center (rankAvg (ps.map RVal.val)) = C.map RVal.val := by
    rw [hy, center_map_val R hRne, hC]
  set S : ℚ := (List.zipWith (· * ·) C C).sum with hS
  have hdot : dotSum (C.map RVal.val) (C.map RVal.val) = RVal.val S := dotSum_map_val C C
  have hu : ((((0 : ℕ) : ℚ) + 1) - R.sum / (R.length : ℚ)) ∈ C := by
    rw [hC]
    exact List.mem_map_of_mem _ (by
      rw [hR]
      exact List.mem_map_of_mem _ (List.mem_range.mpr (by omega)))
  have hv : ((((1 : ℕ) : ℚ) + 1) - R.sum / (R.length : ℚ)) ∈ C := by
    rw [hC]
    exact List.mem_map_of_mem _ (by
      rw [hR]
      exact List.mem_map_of_mem _ (List.mem_range.mpr (by omega)))
  have huv : ((((0 : ℕ) : ℚ) + 1) - R.sum / (R.length : ℚ))
      ≠ ((((1 : ℕ) : ℚ) + 1) - R.sum / (R.length : ℚ)) := by
    intro h0
    push_cast at h0
    linarith
  have hSpos : 0 < S := zipWith_self_sum_pos C _ _ hu hv huv
  rw [spearman_eq]
  rw [if_neg (by rw [rankAvg_length, List.length_map]; omega)]
  rw [hxc, hyc, hdot]
  show (if Real.sqrt ((S : ℝ) * (S : ℝ)) = 0 then RValR.nan
      else RValR.val ((S : ℝ) / Real.sqrt ((S : ℝ) * (S : ℝ)))) = RValR.val 1
  have hSr : (0 : ℝ) < (S : ℝ) := by exact_mod_cast hSpos
  rw [Real.sqrt_mul_self hSr.le]
  rw [if_neg (ne_of_gt hSr)]
  rw [div_self (ne_of_gt hSr)]

theorem spearman_inc_dec (qs ps : List ℚ) (h3 : 3 ≤ qs.length) (hlen : ps.length = qs.length)
    (hq : qs.Pairwise (· < ·)) (hp : ps.Pairwise (· > ·)) :
    spearman_corr (qs.map RVal.val) (ps.map RVal.val) = RValR.val (-1) := by
  obtain ⟨n, hn⟩ : ∃ n, n = qs.length := ⟨_, rfl⟩
  obtain ⟨R, hR⟩ : ∃ R : List ℚ, R = (List.range n).map (fun i : ℕ => (i : ℚ) + 1) := ⟨_, rfl⟩
  have hRlen : R.length = n := by rw [hR, List.length_map, List.length_range]
  have hRne : R ≠ [] := by
    intro h0
    rw [h0] at hRlen
    simp at hRlen
    omega
  have hn0 : (n : ℚ) ≠ 0 := Nat.cast_ne_zero.mpr (by omega)
  obtain ⟨D, hD⟩ : ∃ D : List ℚ, D = (List.range n).map (fun i : ℕ => (n : ℚ) - (i : ℚ)) :=
    ⟨_, rfl⟩
  have hDR : D = R.map (fun u => ((n : ℚ) + 1) - u) := by
    rw [hD, hR, List.map_map]
    apply List.map_congr_left
    intro i _
    show (n : ℚ) - (i : ℚ) = ((n : ℚ) + 1) - ((i : ℚ) + 1)
    ring
  have hDne : D ≠ [] := by
    intro h0
    rw [hDR] at h0
    exact hRne (List.map_eq_nil_iff.mp h0)
  have hx : rankAvg (qs.map RVal.val) = R.map RVal.val := by
    rw [rankAvg_sorted_inc qs hq, ← hn, hR, List.map_map]
    rfl
  have hy : rankAvg (ps.map RVal.val) = D.map RVal.val := by
    rw [rankAvg_sorted_dec ps hp, hlen, ← hn, hD, List.map_map]
    rfl
  obtain ⟨C, hC⟩ : ∃ C : List ℚ, C = R.map (fun u => u - R.sum / (R.length : ℚ)) := ⟨_, rfl⟩
  have hxc : center (rankAvg (qs.map RVal.val)) = C.map RVal.val := by
    rw [hx, center_map_val R hRne, hC]
  have hDsum : D.sum = (R.length : ℚ) * ((n : ℚ) + 1) - R.sum := by
    rw [hDR]
    exact sum_map_const_sub R ((n : ℚ) + 1)
  have hDlen : D.length = n := by rw [hD, List.length_map, List.length_range]
  have hkey : D.map (fun u => u - D.sum / (D.length : ℚ)) = C.map Neg.neg := by
    rw [hDsum, hDlen, hDR, List.map_map, hC, List.map_map]
    apply List.map_congr_left
    intro r _
    show (((n : ℚ) + 1) - r) - ((R.length : ℚ) * ((n : ℚ) + 1) - R.sum) / (n : ℚ)
        = - (r - R.sum / (R.length : ℚ))
    rw [hRlen]
    field_simp
    ring
  have hyc : center (rankAvg (ps.map RVal.val)) = (C.map Neg.neg).map RVal.val := by
    rw [hy, center_map_val D hDne, hkey]
  obtain ⟨S, hS⟩ : ∃ S : ℚ, S = (List.zipWith (· * ·) C C).sum := ⟨_, rfl⟩
  have hS' : S = (C.map (fun a => a * a)).sum := by rw [hS, List.zipWith_same]
  have hdot : dotSum (C.map RVal.val) (C.map RVal.val) = RVal.val S := by
    rw [dotSum_map_val, hS]
  have ha : dotSum (C.map RVal.val) ((C.map Neg.neg).map RVal.val) = RVal.val (-S) := by
    rw [dotSum_map_val]
    congr 1
    rw [List.zipWith_map_right, List.zipWith_same]
    have h1 : C.map (fun a => a * -a) = C.map (fun a => - (a * a)) := by
      apply List.map_congr_left
      intro a _
      ring
    rw [h1, sum_map_neg_eq C (fun a => a * a), hS']
  have hc : dotSum ((C.map Neg.neg).map RVal.val) ((C.map Neg.neg).map RVal.val)
      = RVal.val S := by
    rw [dotSum_map_val]
    congr 1
    rw [List.zipWith_same, List.map_map]
    have h1 : C.map ((fun a => a * a) ∘ Neg.neg) = C.map (fun a => a * a) := by
      apply List.map_congr_left
      intro a _
      show (-a) * (-a) = a * a
      ring
    rw [h1]
    exact hS'.symm
  have hu : ((((0 : ℕ) : ℚ) + 1) - R.sum / (R.length : ℚ)) ∈ C := by
    rw [hC]
    exact List.mem_map_of_mem _ (by
      rw [hR]
      exact List.mem_map_of_mem _ (List.mem_range.mpr (by omega)))
  have hv : ((((1 : ℕ) : ℚ) + 1) - R.sum / (R.length : ℚ)) ∈ C := by
    rw [hC]
    exact List.mem_map_of_mem _ (by
      rw [hR]
      exact List.mem_map_of_mem _ (List.mem_range.mpr (by omega)))
  have huv : ((((0 : ℕ) : ℚ) + 1) - R.sum / (R.length : ℚ))
      ≠ ((((1 : ℕ) : ℚ) + 1) - R.sum / (R.length : ℚ)) := by
    intro h0
    push_cast at h0
    linarith
  have hSpos : 0 < S := by
    rw [hS]
    exact zipWith_self_sum_pos C _ _ hu hv huv
  rw [spearman_eq]
  rw [if_neg (by rw [rankAvg_length, List.length_map]; omega)]
  rw [hxc, hyc, ha, hdot, hc]
  show (if Real.sqrt ((S : ℝ) * (S : ℝ)) = 0 then RValR.nan
      else RValR.val (((-S : ℚ) : ℝ) / Real.sqrt ((S : ℝ) * (S : ℝ)))) = RValR.val (-1)
  have hSr : (0 : ℝ) < (S : ℝ) := by exact_mod_cast hSpos
  rw [Real.sqrt_mul_self hSr.le]
  rw [if_neg (ne_of_gt hSr)]
  have hcast : ((-S : ℚ) : ℝ) = -(S : ℝ) := by push_cast; ring
  rw [hcast, neg_div, div_self (ne_of_gt hSr)]

theorem RVal.sub_nan_left (y : RVal) : RVal.sub RVal.nan y = RVal.nan := by
  cases y <;> rfl

theorem spearman_nan_left (xs ys : List RVal) (hmem : RVal.nan ∈ xs) :
    spearman_corr xs ys = RValR.nan := by
  rw [spearman_eq]
  by_cases hlen : (rankAvg xs).length < 3
  · rw [if_pos hlen]
  · rw [if_neg hlen]
    have h1 : RVal.nan ∈ rankAvg xs := List.mem_map.mpr ⟨RVal.nan, hmem, rfl⟩
    have h2 : RVal.nan ∈ center (rankAvg xs) :=
      List.mem_map.mpr ⟨RVal.nan, h1, RVal.sub_nan_left _⟩
    have hxx : dotSum (center (rankAvg xs)) (center (rankAvg xs)) = RVal.nan := by
      unfold dotSum
      rw [List.zipWith_same]
      exact npSum_eq_nan_of_mem (List.mem_map.mpr ⟨RVal.nan, h2, rfl⟩)
    rcases hxy : dotSum (center (rankAvg xs)) (center (rankAvg ys)) with _ | a
    · rfl
    · rw [hxx]

theorem spearman_nan_right (xs ys : List RVal) (hmem : RVal.nan ∈ ys) :
    spearman_corr xs ys = RValR.nan := by
  rw [spearman_eq]
  by_cases hlen : (rankAvg xs).length < 3
  · rw [if_pos hlen]
  · rw [if_neg hlen]
    have h1 : RVal.nan ∈ rankAvg ys := List.mem_map.mpr ⟨RVal.nan, hmem, rfl⟩
    have h2 : RVal.nan ∈ center (rankAvg ys) :=
      List.mem_map.mpr ⟨RVal.nan, h1, RVal.sub_nan_left _⟩
    have hyy : dotSum (center (rankAvg ys)) (center (rankAvg ys)) = RVal.nan := by
      unfold dotSum
      rw [List.zipWith_same]
      exact npSum_eq_nan_of_mem (List.mem_map.mpr ⟨RVal.nan, h2, rfl⟩)
    rcases hxy : dotSum (center (rankAvg xs)) (center (rankAvg ys)) with _ | a
    · rfl
    · rcases hxx : dotSum (center (rankAvg xs)) (center (rankAvg xs)) with _ | b
      · rfl
      · rw [hyy]

/-- C2 (amended): the rank correlation estimator returns the NaN sentinel for
fewer than 3 data points, for a constant input sequence on either side (zero
rank variance), and also when either input contains a NaN sentinel; whenever
it returns a non-NaN value, that value lies in [-1, 1]; for NaN-free inputs
of equal length at least 3 it returns exactly 1.0 when both sequences are
strictly increasing and exactly -1.0 when the first is strictly increasing
and the second strictly decreasing. -/
theorem spearman_corr_spec :
    (∀ xs ys : List RVal, xs.length < 3 → spearman_corr xs ys = RValR.nan)
    ∧ (∀ (xs ys : List RVal) (q : ℚ), (∀ v ∈ xs, v = RVal.val q) →
        spearman_corr xs ys = RValR.nan)
    ∧ (∀ (xs ys : List RVal) (q : ℚ), (∀ v ∈ ys, v = RVal.val q) →
        spearman_corr xs ys = RValR.nan)
    ∧ (∀ xs ys : List RVal, RVal.nan ∈ xs ∨ RVal.nan ∈ ys →
        spearman_corr xs ys = RValR.nan)
    ∧ (∀ (xs ys : List RVal) (r : ℝ), spearman_corr xs ys = RValR.val r → -1 ≤ r ∧ r ≤ 1)
    ∧ (∀ qs ps : List ℚ, 3 ≤ qs.length → ps.length = qs.length →
        qs.Pairwise (· < ·) → ps.Pairwise (· < ·) →
        spearman_corr (qs.map RVal.val) (ps.map RVal.val) = RValR.val 1)
    ∧ (∀ qs ps : List ℚ, 3 ≤ qs.length → ps.length = qs.length →
        qs.Pairwise (· < ·) → ps.Pairwise (· > ·) →
        spearman_corr (qs.map RVal.val) (ps.map RVal.val) = RValR.val (-1)) :=
  ⟨spearman_short,
   spearman_const_left,
   spearman_const_right,
   fun xs ys h => h.elim (spearman_nan_left xs ys) (spearman_nan_right xs ys),
   spearman_corr_val_bound,
   spearman_inc_inc,
   spearman_inc_dec⟩

/-- Counterexample to C2 as stated: on 3 data points with neither rank
sequence of zero variance, a NaN in the capacity input still produces the
NaN sentinel rather than a value in [-1, 1]. -/
theorem spearman_nan_input_counterexample :
    spearman_corr [RVal.val 0, RVal.val 1, RVal.val 2] [RVal.nan, RVal.val 0, RVal.val 1]
        = RValR.nan
    ∧ ¬ (([RVal.val 0, RVal.val 1, RVal.val 2] : List RVal).length < 3)
    ∧ dotSum (center (rankAvg [RVal.val 0, RVal.val 1, RVal.val 2]))
        (center (rankAvg [RVal.val 0, RVal.val 1, RVal.val 2])) ≠ RVal.val 0
    ∧ dotSum (center (rankAvg [RVal.nan, RVal.val 0, RVal.val 1]))
        (center (rankAvg [RVal.nan, RVal.val 0, RVal.val 1])) ≠ RVal.val 0 := by
  refine ⟨spearman_nan_right _ _ (by decide), by decide, ?_, ?_⟩
  · norm_num [dotSum, center, rankAvg, rankOf, npMean, npSum, RVal.ltVal, RVal.eqVal,
      RVal.sub, RVal.mul, RVal.add, List.countP_cons, List.countP_nil]
  · norm_num [dotSum, center, rankAvg, rankOf, npMean, npSum, RVal.ltVal, RVal.eqVal,
      RVal.sub, RVal.mul, RVal.add, List.countP_cons, List.countP_nil]
    decide

/-- Witness for C2 (amended) at concrete inputs. -/
theorem spearman_corr_spec_witness :
    spearman_corr (([0, 1, 2] : List ℚ).map RVal.val) (([5, 7, 9] : List ℚ).map RVal.val)
        = RValR.val 1
    ∧ spearman_corr (([0, 1, 2] : List ℚ).map RVal.val) (([9, 7, 5] : List ℚ).map RVal.val)
        = RValR.val (-1)
    ∧ spearman_corr [RVal.val 1] [RVal.val 2] = RValR.nan :=
  ⟨spearman_corr_spec.2.2.2.2.2.1 [0, 1, 2] [5, 7, 9]
      (by decide) (by decide) (by decide) (by decide),
   spearman_corr_spec.2.2.2.2.2.2 [0, 1, 2] [9, 7, 5]
      (by decide) (by decide) (by decide) (by decide),
   spearman_corr_spec.1 [RVal.val 1] [RVal.val 2] (by decide)⟩
